import Mathlib

/-!
# Verification of the walkabout traversal engine

A shallow embedding of the `engine` package of bobvawter/walkabout
(`src/engine/engine.go`), a generic visitor engine over typed object
graphs, together with proofs of the specification's claims about it.

## Memory model

The Go engine works over raw memory through `unsafe.Pointer` (`e.Ptr`),
byte offsets and `reflect.SliceHeader`.  We embed that memory as a
word-addressed heap `Nat → Nat`:

* `Ptr` is a word address; `0` plays the role of Go's `nil`;
* a struct of `SizeOf = n` occupies `n` consecutive words, a field at
  byte-offset `o` in Go lives at word-offset `o` here;
* a pointer value is one word holding the target address;
* a slice value is a two-word header: the backing-array address and the
  length (mirroring `reflect.SliceHeader`);
* an interface (tagged-union) value is two words: the concrete element
  type id (the model of the generated `IntfType` mapping; `0` for a
  typed-nil or foreign dynamic type) and the payload address
  (mirroring the engine's `(*[2]Ptr)(value)[1]` access);
* `unsafe.Sizeof`/`unsafe.Offsetof` values arrive through the
  descriptor table exactly as in Go.

Allocation (`NewStruct`, `NewSlice`, `&next`, `IntfWrap`) is modelled by
a bump allocator: `Mem` carries the heap together with the next free
address, and fresh blocks are zero-initialised, as Go's allocator
guarantees.

Go `error` values are represented by `Err := Nat` (only their identity
matters to the engine), Go panics by a dedicated `Outcome.panicked`
result that is distinct from an error return.
-/

set_option maxHeartbeats 1000000

namespace Walkabout

/-- Type ids, as in `engine`: `TypeID` is a dense index, `0` means "no type". -/
abbrev TypeID := Nat

/-- `e.Ptr` (an `unsafe.Pointer`): a word address, `0` is Go's `nil`. -/
abbrev Ptr := Nat

/-- A Go `error` value; only its identity matters to the engine. -/
abbrev Err := Nat

/-- The program memory visible to callbacks: a word-addressed heap. -/
abbrev Heap := Nat → Nat

/-- Memory together with a bump-allocation watermark. Addresses `< next`
are the allocated part; fresh allocations are handed out at `next`. -/
structure Mem where
  heap : Heap
  next : Nat

/-- Write one word. -/
def Mem.write (m : Mem) (a v : Nat) : Mem :=
  { m with heap := fun i => if i = a then v else m.heap i }

/-- Copy `n` words from `src` to `dst` (the model of a generated
`Copy: func(dest, from e.Ptr) { *(*T)(dest) = *(*T)(from) }`, which is a
single typed value copy, hence reads the pre-copy source). -/
def Mem.copyWords (m : Mem) (dst src n : Nat) : Mem :=
  { m with heap := fun i => if dst ≤ i ∧ i < dst + n then m.heap (src + (i - dst)) else m.heap i }

/-- Allocate `k` zero-initialised words, returning the base address. -/
def Mem.alloc (m : Mem) (k : Nat) : Ptr × Mem :=
  (m.next,
   { heap := fun i => if m.next ≤ i ∧ i < m.next + k then 0 else m.heap i,
     next := m.next + k })

/-- `engine.Kind`: the dispatch tag of a descriptor. -/
inductive Kind where
  | KindStruct
  | KindPointer
  | KindSlice
  | KindInterface
  | KindOpaque
  deriving Repr, DecidableEq

export Kind (KindStruct KindPointer KindSlice KindInterface KindOpaque)

/-- `engine.FieldInfo`: one traversable struct field. -/
structure FieldInfo where
  Name : String
  Offset : Nat
  Target : TypeID
  deriving Repr, DecidableEq

/-- `engine.TypeData`: one descriptor of the type map.

The Go struct additionally carries the function fields `Copy`,
`NewStruct`, `NewSlice`, `Facade`, `IntfType`, `IntfWrap` and the
cross-link pointers `elemData` / `FieldInfo.targetData`.  The function
fields are generated uniformly from the type's layout and are embedded
as engine-level operations on `Mem` (see `Mem.copyWords`, `Mem.alloc`
and the interface word-layout above); the cross-links, which `New`
resolves to exactly `typeData td.Elem` / `typeData f.Target`, are
embedded as those lookups. -/
structure TypeData where
  -- the field type is `TypeID`; spelled `Nat` because the field's own
  -- name shadows the abbreviation inside the declaration
  TypeID : Nat
  Kind : Walkabout.Kind
  SizeOf : Nat
  Elem : Nat
  Fields : List FieldInfo
  Name : String
  deriving Repr, DecidableEq

/-- The zero `TypeData` (Go's zero value for an absent map entry). -/
def zeroTD : TypeData := ⟨0, KindOpaque, 0, 0, [], ""⟩

/-- `engine.TypeMap`: the dense id-indexed descriptor table. -/
abbrev TypeMap := List TypeData

/-- `engine.Engine`: holds the (defensively copied) type map. -/
structure Engine where
  typeMap : TypeMap
  deriving DecidableEq

/-- `Engine.typeData`: `&e.typeMap[id]`.  An out-of-range id is a Go
index panic, i.e. undefined behaviour per the spec; the model returns
the zero descriptor there, which every consumer treats as fatal. -/
def Engine.typeData (e : Engine) (id : TypeID) : TypeData :=
  e.typeMap.getD id zeroTD

/-- Whether every cross-reference of descriptor `td` resolves inside
table `m` (the success condition of `New`'s link loop). -/
def resolvesIn (m : TypeMap) (td : TypeData) : Prop :=
  (td.Elem ≠ 0 → ((Engine.mk m).typeData td.Elem).TypeID ≠ 0) ∧
  ∀ f ∈ td.Fields, ((Engine.mk m).typeData f.Target).TypeID ≠ 0

instance (m : TypeMap) (td : TypeData) : Decidable (resolvesIn m td) := by
  unfold resolvesIn; infer_instance

/-- `engine.New`: builds an `Engine` from a `TypeMap`.

Go makes a defensive copy of the input slice
(`append(m[:0:0], m...)` forces a fresh backing array, so the caller's
slice is never written), then resolves every `Elem` and every
`Fields[i].Target` into a direct descriptor pointer, panicking
(`bad codegen: ...`) whenever a referenced id is missing (zero
`TypeID`).  The model returns the copied table on success and an
`Except.error` for the panic; the resolved pointers are the lookups
performed by `Engine.typeData` (see `TypeData`). -/
def New (m : TypeMap) : Except String Engine :=
  let e : Engine := ⟨m⟩
  match m.find? (fun td => ¬ resolvesIn m td) with
  | some td => .error ("bad codegen: missing reference in descriptor " ++ toString td.TypeID)
  | none => .ok e

/-- `engine.Abstract` (the accessor value): engine, resolved descriptor
and wrapped handle.  The engine back-reference is the constructing
engine itself and is left implicit here. -/
structure AbstractView where
  typeData : TypeData
  value : Ptr
  deriving Repr, DecidableEq

/-- `Engine.Abstract`: `nil` for a `nil` handle, otherwise an accessor
wrapping the descriptor of `typeID` and the handle, with no validation
of the id beyond the table lookup. -/
def Engine.Abstract (e : Engine) (typeID : TypeID) (x : Ptr) : Option AbstractView :=
  if x = 0 then none
  else some ⟨e.typeData typeID, x⟩

/-! ## The Decision / Action protocol

`engine.Decision` and `engine.Action` live in an engine source file that
is not part of the provided sources; only `engine.go`, the generated
code and the templates use them.  Their shape is fixed by those uses
(`d.halt`, `d.skip`, `d.actions`, `d.intercept`, `d.post`,
`d.ReplacementType`/`d.Replacement`, `curSlot.call`, `curSlot.post`,
`curSlot.dirty`, `curSlot.replaced`, `curSlot.value`,
`curSlot.typeData`, `ret.valueType`) and their behaviour is modelled
from the spec (§4.3, "Decision / Action protocol").

`ActionG`/`DecisionG` are parametrised by the callback type and the
knot is tied by the `FacadeFn` inductive, so that `Action` and
`Decision` below have exactly the source's fields. -/

/-- `engine.Action` (one visitation slot), parametrised by the callback
type.  A side-effect callback `func() error` has no observable effect in
the model beyond its error result, so `call` stores that result. -/
structure ActionG (F : Type) where
  valueType : Nat
  typeData : Option TypeData
  value : Ptr
  assignableTo : Option TypeData
  call : Option (Option Err)
  post : Option F
  dirty : Bool
  replaced : Bool

/-- `engine.Decision` (a callback's directive), parametrised by the
callback type. -/
structure DecisionG (F : Type) where
  err : Option Err
  halt : Bool
  skip : Bool
  actions : Option (List (ActionG F))
  intercept : Option F
  post : Option F
  replacement : Option (TypeID × Ptr)

/-- `engine.FacadeFn`: a user callback.  The generated
`TypeData.Facade` adapters hand the callback the typed value behind the
slot's handle, so in the model a callback reads the type id, the handle
and the current heap. -/
inductive FacadeFn : Type where
  | mk (fn : TypeID → Ptr → Heap → DecisionG FacadeFn) : FacadeFn

abbrev Action := ActionG FacadeFn

abbrev Decision := DecisionG FacadeFn

/-- Invoke a callback (the engine's `curSlot.typeData.Facade(ctx, fn, v)`:
the generated facade is a plain typed call into `fn`). -/
def FacadeFn.app : FacadeFn → TypeID → Ptr → Heap → Decision
  | ⟨f⟩ => f

/-- `Context.Continue`: the zero `Decision`, "descend normally". -/
def Context.Continue : Decision := ⟨none, false, false, none, none, none, none⟩

/-- `Context.Skip`: treat the node as a leaf, no descent. -/
def Context.Skip : Decision := { Context.Continue with skip := true }

/-- `Context.Halt`: stop scheduling further descents. -/
def Context.Halt : Decision := { Context.Continue with halt := true }

/-- `Context.Error`: abort, propagating `er` to the `Execute` caller. -/
def Context.Error (er : Err) : Decision := { Context.Continue with err := some er }

/-- `Context.Actions`: replace the default field/element enumeration by
an explicit list of actions (engine-level; the generated wrappers turn
an empty list into `Skip` themselves, and `Execute` also unwinds on an
empty list). -/
def Context.Actions (as : List Action) : Decision := { Context.Continue with actions := some as }

/-- `Decision.Intercept`: registers `g` to run before every subsequent
descent into a child. -/
def DecisionG.Intercept (d : DecisionG F) (g : F) : DecisionG F := { d with intercept := some g }

/-- `Decision.Post`: registers a post-visit callback on the node. -/
def DecisionG.Post (d : DecisionG F) (g : F) : DecisionG F := { d with post := some g }

/-- `Decision.Replace`: substitute the node's value outright.

Modelled from the spec: the `Decision` implementation is not among the
provided sources.  Per §4.3 a replaced node's "own children are not
auto-visited", and `Execute` suppresses descent only through its
`halting, d.skip` switch arm, so `Replace` marks the decision as
skipping as well as recording the `(type id, handle)` replacement pair
(the generated wrappers call this as `Replace(identify(x))`). -/
def DecisionG.Replace (d : DecisionG F) (tid : TypeID) (p : Ptr) : DecisionG F :=
  { d with replacement := some (tid, p), skip := true }

/-- `Context.ActionVisitReplace`: a slot visiting handle `p` at
descriptor `td`, whose replacements must be assignable to `assign`. -/
def Context.ActionVisitReplace (td : TypeData) (p : Ptr) (assign : TypeData) : Action :=
  ⟨td.TypeID, some td, p, some assign, none, none, false, false⟩

/-- `engine.ActionVisitTypeId`: a user-built visit action; its
descriptor is resolved later by `SetSlot`. -/
def ActionVisitTypeId (tid : TypeID) (p : Ptr) : Action :=
  ⟨tid, none, p, none, none, none, false, false⟩

/-- `engine.ActionCall`: a side-effect action wrapping `func() error`;
`res` is the wrapped callback's return value. -/
def ActionCall (res : Option Err) : Action :=
  ⟨0, none, 0, none, some res, none, false, false⟩

/-- The slot's resolved descriptor (`curSlot.typeData`, always set once
the slot went through `SetSlot`). -/
def ActionG.td (a : ActionG F) : TypeData := a.typeData.getD zeroTD

/-- `Action.apply`: fold a `Decision` into the slot.

Modelled from the spec: the implementation is not among the provided
sources.  Per §4.3 and the uses in `Execute`: an `Error(e)` decision
aborts with `e`; a `Post(fn)` modifier installs the post-visit callback
on the slot; a `Replace(v)` substitutes the slot's value and descriptor
outright and marks the slot dirty and replaced (so the unwind phase
propagates the change upward without reconstructing this node).
`skip`, `halt`, `actions` and `intercept` are flow control read by
`Execute` directly from the decision, not slot state. -/
def ActionG.apply (e : Engine) (a : Action) (d : Decision) : Except Err Action :=
  match d.err with
  | some er => .error er
  | none =>
    let a1 := match d.post with
      | some pf => { a with post := some pf }
      | none => a
    match d.replacement with
    | some (tid, p) =>
      .ok { a1 with value := p, typeData := some (e.typeData tid), dirty := true, replaced := true }
    | none => .ok a1

/-! ## Frames and the stack -/

/-- The inert zero `Action` a fresh frame's slots start as. -/
def Action.initial : Action := ⟨0, none, 0, none, none, none, false, false⟩

/-- `engine.frame`: the visitation record of one struct, interface,
slice or pointer.  The Go struct splits storage into a fixed inline
array of 16 slots plus heap overflow as a pure allocation optimisation
(`frame.Slot` makes the split invisible); the model uses one list. -/
structure Frame where
  Count : Nat
  Idx : Nat
  Intercept : Option FacadeFn
  slots : List Action

/-- `frame.Slot`. -/
def Frame.Slot (f : Frame) (idx : Nat) : Action := f.slots.getD idx Action.initial

/-- `frame.Active`: the active slot. -/
def Frame.Active (f : Frame) : Action := f.Slot f.Idx

/-- `frame.Zero`: slot 0. -/
def Frame.Zero (f : Frame) : Action := f.Slot 0

/-- The stack of frames; the head is the top.  `Top 0` is the head,
`Peek l` counts from the bottom, so the cycle scan over
`Peek 0 .. Peek (depth-2)` is a scan of the tail of this list. -/
abbrev Stack := List Frame

/-- `frame.SetSlot`'s descriptor resolution: a slot arriving without a
descriptor gets `e.typeData(valueType)`. -/
def resolveAction (e : Engine) (a : Action) : Action :=
  match a.typeData with
  | some _ => a
  | none => { a with typeData := some (e.typeData a.valueType) }

/-- `stack.Enter` followed by the `SetSlot` loop that populates every
slot of the new frame, returning the grown stack.

Modelled from the spec: the stack implementation is not among the
provided sources.  §4.2 gives `enter(inheritedIntercept, slotCount)`;
per §4.3 an intercept is "inherited by that child's descendants until a
later decision overrides it with a new intercept", so a frame entered
without an explicit intercept inherits the enclosing frame's (this is
what makes the intercept reach grandchildren of a struct node, whose
child frame is entered with only the node's own `d.intercept`). -/
def enterWith (e : Engine) (s : Stack) (icept : Option FacadeFn) (as : List Action) : Stack :=
  let inherited := match icept with
    | some g => some g
    | none => match s with
      | f :: _ => f.Intercept
      | [] => none
  { Count := as.length, Idx := 0, Intercept := inherited,
    slots := as.map (resolveAction e) } :: s

/-! ## The `Execute` state machine

`Execute` is an unrolled recursive function driven by three labels
(`enter`, `unwind`, `nextSlot`).  `step` performs the work of one label
and `runE` iterates it on fuel (the Go loop has no fuel; every claim
about a finished traversal is stated about runs that return).

Each callback invocation is recorded as an `Event` carrying the
decision's observable summary, so that claims about which callbacks
fire, and in which order, are claims about the returned trace. -/

/-- The observable summary of a decision, recorded in the trace. -/
structure DecSummary where
  err : Option Err
  halt : Bool
  replacement : Option (TypeID × Ptr)
  deriving Repr, DecidableEq

def DecisionG.summary (d : DecisionG F) : DecSummary := ⟨d.err, d.halt, d.replacement⟩

/-- One callback invocation. -/
inductive Event where
  | visit (tid : TypeID) (p : Ptr) (d : DecSummary)
  | icept (tid : TypeID) (p : Ptr) (d : DecSummary)
  | post (tid : TypeID) (p : Ptr) (d : DecSummary)
  | sideEffect (res : Option Err)
  deriving Repr, DecidableEq

/-- The error produced by an invocation, if any. -/
def Event.errOf : Event → Option Err
  | .visit _ _ d => d.err
  | .icept _ _ d => d.err
  | .post _ _ d => d.err
  | .sideEffect r => r

/-- The result of `Execute`: a normal Go return (possibly carrying a
non-nil `err`), a panic, or fuel exhaustion of the model. -/
inductive Outcome where
  | ok (retType : TypeID) (ret : Ptr) (changed : Bool) (err : Option Err)
  | panicked (msg : String)
  | fuelOut
  deriving Repr, DecidableEq

/-- The machine state between labels: the frame stack, memory, the
`halting` flag and the just-popped `returning` frame. -/
structure Config where
  stack : Stack
  mem : Mem
  halting : Bool
  returning : Option Frame

inductive Label where
  | enter
  | unwind
  | nextSlot
  deriving Repr, DecidableEq

/-- One label's work: either `Execute` returns, or control moves on. -/
inductive StepRes where
  | done (o : Outcome) (evs : List Event)
  | cont (l : Label) (c : Config) (evs : List Event)

/-- The linear cycle scan: some ancestor frame's active slot holds the
same `(type id, handle)` pair (`stack.Peek(l).Active()` for
`l < Depth()-1`, i.e. every frame but the top). -/
def cycleHit (s : Stack) (cur : Action) : Bool :=
  match s with
  | [] => false
  | _ :: rest => rest.any fun f =>
      f.Active.value == cur.value && f.Active.td.TypeID == cur.td.TypeID

/-- Mark the parent frame's active slot dirty
(`stack.Top(1).Active().dirty = true`). -/
def markParentDirty : Stack → Stack
  | [] => []
  | p :: ps => { p with slots := p.slots.set p.Idx { p.Active with dirty := true } } :: ps

/-- Store an updated active slot back into its frame (Go mutates the
slot in place through the `*Action` pointer). -/
def Frame.writeActive (f : Frame) (a : Action) : Frame :=
  { f with slots := f.slots.set f.Idx a }

/-- Fold a returning frame into a replacement value for the current
slot: the `!curSlot.replaced` switch of the unwind block. -/
def reconstruct (e : Engine) (m : Mem) (a : Action) (r : Frame) : Except String (Action × Mem) :=
  match a.td.Kind with
  | KindStruct =>
    -- NewStruct: a fresh zero instance, then a shallow copy of the
    -- original (non-visitable fields), then each visitable field from
    -- its child slot's final value.
    let (base, m1) := m.alloc a.td.SizeOf
    let m2 := m1.copyWords base a.value a.td.SizeOf
    let m3 := (a.td.Fields.enum).foldl
      (fun mm p =>
        mm.copyWords (base + p.2.Offset) ((r.Slot p.1).value) ((e.typeData p.2.Target).SizeOf))
      m2
    .ok ({ a with value := base }, m3)
  | KindPointer =>
    -- `next := returning.Zero().value; curSlot.value = Ptr(&next)`:
    -- a fresh one-word cell holding the (possibly replaced) pointee.
    let (cell, m1) := m.alloc 1
    let m2 := m1.write cell (r.Zero).value
    .ok ({ a with value := cell }, m2)
  | KindSlice =>
    -- NewSlice(returning.Count): fresh backing array and header, then
    -- the elements copied across from the child slots.
    let eltTd := e.typeData a.td.Elem
    let (dataP, m1) := m.alloc (r.Count * eltTd.SizeOf)
    let (hdr, m2) := m1.alloc 2
    let m3 := (m2.write hdr dataP).write (hdr + 1) r.Count
    let m4 := (List.range r.Count).foldl
      (fun mm i => mm.copyWords (dataP + i * eltTd.SizeOf) ((r.Slot i).value) eltTd.SizeOf)
      m3
    .ok ({ a with value := hdr }, m4)
  | KindInterface =>
    -- IntfWrap(next.typeData.TypeID, next.value): a fresh two-word
    -- interface cell (concrete type id, payload).
    let z := r.Zero
    let (cell, m1) := m.alloc 2
    let m2 := (m1.write cell z.td.TypeID).write (cell + 1) z.value
    .ok ({ a with value := cell }, m2)
  | KindOpaque => .error "unimplemented"

/-- The part of the `KindStruct` arm after the intercept phase: invoke
the user callback through the generated facade, fold its decision into
the slot, then push the children frame (fields or explicit actions) or
fall through to `unwind`.  `frame1`, `slot1`, `halting1` are the frame,
active slot and halting flag as left by the intercept phase, `iev` its
events. -/
def stepStructMain (e : Engine) (fn : FacadeFn) (c : Config) (rest : Stack)
    (frame1 : Frame) (slot1 : Action) (halting1 : Bool) (iev : List Event) : StepRes :=
  let d := fn.app slot1.td.TypeID slot1.value c.mem.heap
  let ev2 := Event.visit slot1.td.TypeID slot1.value d.summary
  match slot1.apply e d with
  | .error er => .done (.ok 0 0 false (some er)) (iev ++ [ev2])
  | .ok slot2 =>
    let halting2 := halting1 || d.halt
    let frame2 := frame1.writeActive slot2
    let c2 : Config := { c with stack := frame2 :: rest, halting := halting2 }
    let evs := iev ++ [ev2]
    let fieldCount := slot2.td.Fields.length
    if halting2 || d.skip then .cont .unwind c2 evs
    else match d.actions with
      | some acts =>
        if acts.length = 0 then .cont .unwind c2 evs
        else .cont .enter { c2 with stack := enterWith e c2.stack d.intercept acts } evs
      | none =>
        if fieldCount = 0 then .cont .unwind c2 evs
        else
          .cont .enter
            { c2 with stack := (enterWith e c2.stack d.intercept
                (slot2.td.Fields.map fun f =>
                  Context.ActionVisitReplace (e.typeData f.Target) (slot2.value + f.Offset)
                    (e.typeData f.Target))) }
            evs

/-- The `KindStruct` arm of the `enter` dispatch: run the inherited
intercept (if any), which may halt or replace itself, then hand over to
`stepStructMain`. -/
def stepStruct (e : Engine) (fn : FacadeFn) (c : Config) (curFrame : Frame) (rest : Stack)
    (curSlot : Action) : StepRes :=
  match curFrame.Intercept with
  | none => stepStructMain e fn c rest curFrame curSlot c.halting []
  | some g =>
    let d := g.app curSlot.td.TypeID curSlot.value c.mem.heap
    let ev := Event.icept curSlot.td.TypeID curSlot.value d.summary
    match curSlot.apply e d with
    | .error er => .done (.ok 0 0 false (some er)) [ev]
    | .ok slot1 =>
      let frame1 := match d.intercept with
        | some g2 => { curFrame with Intercept := some g2 }
        | none => curFrame
      stepStructMain e fn c rest frame1 slot1 (c.halting || d.halt) [ev]

/-- The `enter` label: side-effect slots, the cycle guard, then the
kind dispatch that decides whether a child frame is pushed. -/
def stepEnter (e : Engine) (fn : FacadeFn) (c : Config) : StepRes :=
  match c.stack with
  | [] => .done (.panicked "empty stack") []
  | curFrame :: rest =>
    let curSlot := curFrame.Active
    match curSlot.call with
    | some res =>
      -- A side-effect action: invoke it; an error aborts, otherwise
      -- fall through to unwind.
      match res with
      | some er => .done (.ok 0 0 false (some er)) [.sideEffect (some er)]
      | none => .cont .unwind c [.sideEffect none]
    | none =>
      if cycleHit c.stack curSlot then
        .cont .nextSlot c []
      else
        match curSlot.td.Kind with
        | KindPointer =>
          let ptr := c.mem.heap curSlot.value
          if ptr = 0 then .cont .unwind c []
          else
            let eltTd := e.typeData curSlot.td.Elem
            .cont .enter
              { c with stack := (enterWith e c.stack curFrame.Intercept
                  [Context.ActionVisitReplace eltTd ptr eltTd]) }
              []
        | KindStruct => stepStruct e fn c curFrame rest curSlot
        | KindSlice =>
          let len := c.mem.heap (curSlot.value + 1)
          if len = 0 then .cont .unwind c []
          else
            let eltTd := e.typeData curSlot.td.Elem
            let base := c.mem.heap curSlot.value
            .cont .enter
              { c with stack := (enterWith e c.stack curFrame.Intercept
                  ((List.range len).map fun i =>
                    Context.ActionVisitReplace eltTd (base + i * eltTd.SizeOf) eltTd)) }
              []
        | KindInterface =>
          let ptr := c.mem.heap (curSlot.value + 1)
          let elem := c.mem.heap curSlot.value
          if elem = 0 ∨ ptr = 0 then .cont .unwind c []
          else
            .cont .enter
              { c with stack := (enterWith e c.stack curFrame.Intercept
                  [Context.ActionVisitReplace (e.typeData elem) ptr curSlot.td]) }
              []
        | KindOpaque => .done (.panicked "unexpected kind") []

/-- The part of the `unwind` label after the post-visit phase:
propagate dirt upward, reconstructing the slot value from the returning
frame unless the slot was replaced outright.  `slot1`, `halting1` are
the active slot and halting flag as left by the post phase, `pev` its
events. -/
def stepUnwindTail (e : Engine) (c : Config) (curFrame : Frame) (rest : Stack)
    (slot1 : Action) (halting1 : Bool) (pev : List Event) : StepRes :=
  if slot1.dirty then
    let rest1 := markParentDirty rest
    if slot1.replaced then
      .cont .nextSlot
        { c with stack := curFrame.writeActive slot1 :: rest1, halting := halting1 } pev
    else
      match c.returning with
      | none => .done (.panicked "nil returning frame") pev
      | some r =>
        match reconstruct e c.mem slot1 r with
        | .error msg => .done (.panicked msg) pev
        | .ok (slot2, m2) =>
          .cont .nextSlot
            { c with stack := curFrame.writeActive slot2 :: rest1, mem := m2,
                     halting := halting1 } pev
  else
    .cont .nextSlot
      { c with stack := curFrame.writeActive slot1 :: rest, halting := halting1 } pev

/-- The `unwind` label: run the slot's post-visit callback (which may
halt or error), then hand over to `stepUnwindTail`. -/
def stepUnwind (e : Engine) (c : Config) : StepRes :=
  match c.stack with
  | [] => .done (.panicked "empty stack") []
  | curFrame :: rest =>
    let curSlot := curFrame.Active
    match curSlot.post with
    | none => stepUnwindTail e c curFrame rest curSlot c.halting []
    | some pf =>
      let d := pf.app curSlot.td.TypeID curSlot.value c.mem.heap
      let ev := Event.post curSlot.td.TypeID curSlot.value d.summary
      match curSlot.apply e d with
      | .error er => .done (.ok 0 0 false (some er)) [ev]
      | .ok slot1 => stepUnwindTail e c curFrame rest slot1 (c.halting || d.halt) [ev]

/-- The `nextSlot` label: advance the slot index, unwinding one level
when the frame is exhausted (or the user halted), and returning the
bootstrap slot once the last frame finishes. -/
def stepNext (c : Config) : StepRes :=
  match c.stack with
  | [] => .done (.panicked "empty stack") []
  | curFrame :: rest =>
    let f1 := { curFrame with Idx := curFrame.Idx + 1 }
    if f1.Idx = f1.Count || c.halting then
      match rest with
      | [] =>
        let z := f1.Zero
        .done (.ok z.td.TypeID z.value z.dirty none) []
      | _ :: _ =>
        .cont .unwind { c with stack := rest, returning := some f1 } []
    else
      .cont .enter { c with stack := f1 :: rest } []

/-- Dispatch one label. -/
def step (e : Engine) (fn : FacadeFn) : Label → Config → StepRes
  | .enter, c => stepEnter e fn c
  | .unwind, c => stepUnwind e c
  | .nextSlot, c => stepNext c

/-- Iterate the machine on fuel, accumulating the trace and returning
the final memory. -/
def runE (e : Engine) (fn : FacadeFn) : Nat → Label → Config → Outcome × List Event × Mem
  | 0, _, c => (.fuelOut, [], c.mem)
  | fuel + 1, l, c =>
    match step e fn l c with
    | .done o evs => (o, evs, c.mem)
    | .cont l' c' evs =>
      let r := runE e fn fuel l' c'
      (r.1, evs ++ r.2.1, r.2.2)

/-- `Engine.Execute`: bootstrap one frame holding the root slot
(`ActionVisitReplace(typeData(t), x, typeData(assignableTo))`) and run
the machine until the stack empties. -/
def Engine.Execute (e : Engine) (fn : FacadeFn) (t : TypeID) (x : Ptr) (assignableTo : TypeID)
    (m : Mem) (fuel : Nat) : Outcome × List Event × Mem :=
  let s0 := enterWith e []
    none [Context.ActionVisitReplace (e.typeData t) x (e.typeData assignableTo)]
  runE e fn fuel .enter ⟨s0, m, false, none⟩

/-- A finite heap literal: association list, absent addresses read 0. -/
def heapOf (l : List (Nat × Nat)) : Heap :=
  fun a => ((l.find? (fun p => p.1 == a)).map Prod.snd).getD 0

/-! ## Claims about construction and the accessor -/

/-- C8: descriptor-table construction.  `New` defensively copies the
input id-to-descriptor map (the engine's table is its own copy, equal
to the caller's input, which the pure model never writes), resolves
every `Elem` and every field `Target` (the resolved cross-links are the
`Engine.typeData` lookups, see `TypeData`), and any missing or
unresolvable reference aborts construction fatally — the Go panic is
the model's `Except.error`, distinct from every recoverable result. -/
theorem C8_new_defensive_copy_resolution :
    (∀ (m : TypeMap) (e : Engine), New m = .ok e →
      e.typeMap = m ∧ ∀ td ∈ m, resolvesIn m td) ∧
    (∀ m : TypeMap, (∃ td ∈ m, ¬ resolvesIn m td) → ∃ msg, New m = .error msg) := by
  constructor
  · intro m e h
    unfold New at h
    rcases hf : m.find? (fun td => ¬ resolvesIn m td) with _ | td
    · rw [hf] at h
      simp only [Except.ok.injEq] at h
      subst h
      refine ⟨rfl, ?_⟩
      intro td htd
      have := List.find?_eq_none.mp hf td htd
      simpa using this
    · rw [hf] at h
      cases h
  · intro m ⟨td, htd, hbad⟩
    unfold New
    rcases hf : m.find? (fun td => ¬ resolvesIn m td) with _ | td'
    · exfalso
      have h1 := List.find?_eq_none.mp hf td htd
      have h2 : resolvesIn m td := by simpa using h1
      exact hbad h2
    · exact ⟨_, rfl⟩

/-- A well-linked two-entry table (a struct with no references). -/
def tmLinked : TypeMap :=
  [zeroTD, { TypeID := 1, Kind := KindStruct, SizeOf := 1, Elem := 0, Fields := [], Name := "S" }]

/-- A table whose pointer descriptor references missing id 5. -/
def tmDangling : TypeMap :=
  [zeroTD, { TypeID := 1, Kind := KindPointer, SizeOf := 1, Elem := 5, Fields := [], Name := "P" }]

/-- Witness for C8: the well-linked table constructs successfully with
the copied table and resolved references; the dangling table aborts. -/
theorem C8_new_defensive_copy_resolution_witness :
    ((⟨tmLinked⟩ : Engine).typeMap = tmLinked ∧ ∀ td ∈ tmLinked, resolvesIn tmLinked td) ∧
    (∃ msg, New tmDangling = .error msg) :=
  ⟨C8_new_defensive_copy_resolution.1 tmLinked ⟨tmLinked⟩ rfl,
   C8_new_defensive_copy_resolution.2 tmDangling
     ⟨{ TypeID := 1, Kind := KindPointer, SizeOf := 1, Elem := 5, Fields := [], Name := "P" },
      by decide, by decide⟩⟩

/-- C10: `Engine.Abstract` returns null exactly for the null handle and
otherwise wraps the table's descriptor for `typeID` (validated no
further — the id may even be 0 or denote a non-traversable kind) and
the handle.  An id beyond the table is a Go index panic (undefined
behaviour per the spec), hence the range hypothesis. -/
theorem C10_abstract_null_iff :
    ∀ (e : Engine) (typeID : TypeID) (x : Ptr), typeID < e.typeMap.length →
      (e.Abstract typeID x = none ↔ x = 0) ∧
      (x ≠ 0 → e.Abstract typeID x = some ⟨e.typeData typeID, x⟩) := by
  intro e typeID x _
  unfold Engine.Abstract
  constructor
  · constructor
    · intro h
      by_contra hx
      rw [if_neg hx] at h
      cases h
    · intro h
      rw [if_pos h]
  · intro hx
    rw [if_neg hx]

/-- Witness for C10, at the unvalidated id 0 of a one-entry table. -/
theorem C10_abstract_null_iff_witness :
    ((Engine.mk [zeroTD]).Abstract 0 0 = none ↔ (0 : Ptr) = 0) ∧
    ((7 : Ptr) ≠ 0 →
      (Engine.mk [zeroTD]).Abstract 0 7 = some ⟨(Engine.mk [zeroTD]).typeData 0, 7⟩) :=
  ⟨(C10_abstract_null_iff ⟨[zeroTD]⟩ 0 0 (by decide)).1,
   fun h => (C10_abstract_null_iff ⟨[zeroTD]⟩ 0 7 (by decide)).2 h⟩

/-! ## The error discipline of a run

Shared infrastructure for the claims about `Error` decisions (C3), the
error-free success path (C4) and the zeroed error results (C9): by
induction over the machine, an error return always carries the trace's
final event, everything before it is error-free, and the non-error
results are zeroed. -/

/-- No invocation in `evs` produced an error. -/
def cleanEvs (evs : List Event) : Prop := ∀ ev ∈ evs, ev.errOf = none

instance (evs : List Event) : Decidable (cleanEvs evs) := by
  unfold cleanEvs; infer_instance

/-- `evs` ends in the invocation that produced `er`, with nothing after
it and no earlier error. -/
def errTrace (evs : List Event) (er : Err) : Prop :=
  ∃ pre ev, evs = pre ++ [ev] ∧ ev.errOf = some er ∧ cleanEvs pre

/-- The error of a normal return. -/
def Outcome.errOf : Outcome → Option Err
  | .ok _ _ _ er => er
  | _ => none

theorem cleanEvs_nil : cleanEvs [] := by intro ev h; cases h

theorem cleanEvs_append {a b : List Event} (ha : cleanEvs a) (hb : cleanEvs b) :
    cleanEvs (a ++ b) := by
  intro ev h
  rcases List.mem_append.mp h with h' | h'
  · exact ha ev h'
  · exact hb ev h'

theorem errTrace_append {a evs : List Event} {er : Err} (ha : cleanEvs a)
    (h : errTrace evs er) : errTrace (a ++ evs) er := by
  obtain ⟨pre, ev, rfl, hev, hpre⟩ := h
  exact ⟨a ++ pre, ev, by simp, hev, cleanEvs_append ha hpre⟩

/-- The shape every `step` result obeys: an error return is zeroed and
its trace ends at the erroring invocation; otherwise the emitted events
are error-free. -/
def stepErrOK : StepRes → Prop
  | .done o evs =>
      (∀ er, o.errOf = some er → o = .ok 0 0 false (some er) ∧ errTrace evs er) ∧
      (o.errOf = none → cleanEvs evs)
  | .cont _ _ evs => cleanEvs evs

theorem apply_error_iff {e : Engine} {a : Action} {d : Decision} {er : Err} :
    a.apply e d = .error er ↔ d.err = some er := by
  unfold ActionG.apply
  rcases d.err with _ | er'
  · simp only
    rcases d.post with _ | pf <;> rcases hrep : d.replacement with _ | ⟨tid, p⟩ <;>
      simp [hrep]
  · simp

theorem apply_ok_err {e : Engine} {a a' : Action} {d : Decision}
    (h : a.apply e d = .ok a') : d.err = none := by
  unfold ActionG.apply at h
  rcases hd : d.err with _ | er'
  · rfl
  · rw [hd] at h; cases h

theorem errTrace_single {ev : Event} {er : Err} (h : ev.errOf = some er) :
    errTrace [ev] er :=
  ⟨[], ev, rfl, h, cleanEvs_nil⟩

theorem stepErrOK_done_err {er : Err} {evs : List Event} (h : errTrace evs er) :
    stepErrOK (.done (.ok 0 0 false (some er)) evs) := by
  constructor
  · intro er' h'
    simp only [Outcome.errOf, Option.some.injEq] at h'
    subst h'
    exact ⟨rfl, h⟩
  · intro h'
    simp only [Outcome.errOf] at h'
    cases h'

theorem stepErrOK_done_noerr {o : Outcome} {evs : List Event} (h : o.errOf = none)
    (hc : cleanEvs evs) : stepErrOK (.done o evs) := by
  constructor
  · intro er h'
    rw [h] at h'
    cases h'
  · intro _
    exact hc

theorem stepNext_errOK (c : Config) : stepErrOK (stepNext c) := by
  unfold stepNext
  split
  · exact stepErrOK_done_noerr rfl cleanEvs_nil
  · dsimp only
    split
    · split
      · exact stepErrOK_done_noerr rfl cleanEvs_nil
      · exact cleanEvs_nil
    · exact cleanEvs_nil

theorem stepStructMain_errOK (e : Engine) (fn : FacadeFn) (c : Config) (rest : Stack)
    (frame1 : Frame) (slot1 : Action) (halting1 : Bool) (iev : List Event)
    (hiev : cleanEvs iev) :
    stepErrOK (stepStructMain e fn c rest frame1 slot1 halting1 iev) := by
  unfold stepStructMain
  dsimp only
  split
  next er hap =>
    refine stepErrOK_done_err (errTrace_append hiev (errTrace_single ?_))
    simpa [Event.errOf, DecisionG.summary] using apply_error_iff.mp hap
  next slot2 hap =>
    have hev2 : cleanEvs (iev ++ [Event.visit slot1.td.TypeID slot1.value
        (fn.app slot1.td.TypeID slot1.value c.mem.heap).summary]) := by
      refine cleanEvs_append hiev ?_
      intro ev hev
      rcases List.mem_singleton.mp hev with rfl
      simpa [Event.errOf, DecisionG.summary] using apply_ok_err hap
    split
    · exact hev2
    · split
      · split
        · exact hev2
        · exact hev2
      · split
        · exact hev2
        · exact hev2

theorem stepStruct_errOK (e : Engine) (fn : FacadeFn) (c : Config) (curFrame : Frame)
    (rest : Stack) (curSlot : Action) :
    stepErrOK (stepStruct e fn c curFrame rest curSlot) := by
  unfold stepStruct
  split
  · exact stepStructMain_errOK _ _ _ _ _ _ _ _ cleanEvs_nil
  next g =>
    dsimp only
    split
    next er hap =>
      refine stepErrOK_done_err (errTrace_single ?_)
      simpa [Event.errOf, DecisionG.summary] using apply_error_iff.mp hap
    next slot1 hap =>
      refine stepStructMain_errOK _ _ _ _ _ _ _ _ ?_
      intro ev hev
      rcases List.mem_singleton.mp hev with rfl
      simpa [Event.errOf, DecisionG.summary] using apply_ok_err hap

theorem stepEnter_errOK (e : Engine) (fn : FacadeFn) (c : Config) :
    stepErrOK (stepEnter e fn c) := by
  unfold stepEnter
  split
  · exact stepErrOK_done_noerr rfl cleanEvs_nil
  · dsimp only
    split
    · split
      next er =>
        refine stepErrOK_done_err (errTrace_single ?_)
        rfl
      · intro ev hev
        rcases List.mem_singleton.mp hev with rfl
        rfl
    · split
      · exact cleanEvs_nil
      · split
        · split
          · exact cleanEvs_nil
          · exact cleanEvs_nil
        · exact stepStruct_errOK _ _ _ _ _ _
        · split
          · exact cleanEvs_nil
          · exact cleanEvs_nil
        · split
          · exact cleanEvs_nil
          · exact cleanEvs_nil
        · exact stepErrOK_done_noerr rfl cleanEvs_nil

theorem stepUnwindTail_errOK (e : Engine) (c : Config) (curFrame : Frame) (rest : Stack)
    (slot1 : Action) (halting1 : Bool) (pev : List Event) (hpev : cleanEvs pev) :
    stepErrOK (stepUnwindTail e c curFrame rest slot1 halting1 pev) := by
  unfold stepUnwindTail
  dsimp only
  split
  · split
    · exact hpev
    · split
      · exact stepErrOK_done_noerr rfl hpev
      · split
        · exact stepErrOK_done_noerr rfl hpev
        · exact hpev
  · exact hpev

theorem stepUnwind_errOK (e : Engine) (c : Config) : stepErrOK (stepUnwind e c) := by
  unfold stepUnwind
  split
  · exact stepErrOK_done_noerr rfl cleanEvs_nil
  · dsimp only
    split
    · exact stepUnwindTail_errOK _ _ _ _ _ _ _ cleanEvs_nil
    next pf =>
      split
      next er hap =>
        refine stepErrOK_done_err (errTrace_single ?_)
        simpa [Event.errOf, DecisionG.summary] using apply_error_iff.mp hap
      next slot1 hap =>
        refine stepUnwindTail_errOK _ _ _ _ _ _ _ ?_
        intro ev hev
        rcases List.mem_singleton.mp hev with rfl
        simpa [Event.errOf, DecisionG.summary] using apply_ok_err hap

theorem step_errOK (e : Engine) (fn : FacadeFn) (l : Label) (c : Config) :
    stepErrOK (step e fn l c) := by
  cases l
  · exact stepEnter_errOK e fn c
  · exact stepUnwind_errOK e c
  · exact stepNext_errOK c

/-- The run-level error discipline: an error return is zeroed and its
trace ends at the erroring invocation with nothing after it; an
error-free outcome has an error-free trace. -/
theorem runE_errOK (e : Engine) (fn : FacadeFn) :
    ∀ (fuel : Nat) (l : Label) (c : Config),
      (∀ er, (runE e fn fuel l c).1.errOf = some er →
        (runE e fn fuel l c).1 = .ok 0 0 false (some er) ∧
        errTrace (runE e fn fuel l c).2.1 er) ∧
      ((runE e fn fuel l c).1.errOf = none → cleanEvs (runE e fn fuel l c).2.1) := by
  intro fuel
  induction fuel with
  | zero =>
    intro l c
    refine ⟨?_, fun _ => cleanEvs_nil⟩
    intro er h
    simp only [runE, Outcome.errOf] at h
    cases h
  | succ n ih =>
    intro l c
    have hs := step_errOK e fn l c
    rcases hstep : step e fn l c with ⟨o, evs⟩ | ⟨l2, c2, evs⟩
    · rw [hstep] at hs
      simp only [runE, hstep]
      exact hs
    · rw [hstep] at hs
      simp only [runE, hstep]
      obtain ⟨ih1, ih2⟩ := ih l2 c2
      refine ⟨?_, ?_⟩
      · intro er h
        exact ⟨(ih1 er h).1, errTrace_append hs (ih1 er h).2⟩
      · intro h
        exact cleanEvs_append hs (ih2 h)

/-! ## The three-level chain demo

`Leaf` (id 1), `Mid` (id 2, one `Leaf` field), `Root` (id 3, two `Mid`
fields `A`, `B`), all stored inline; the root lives at address 10, so
`A` is the `Mid` at 10 and `B` the `Mid` at 11. -/

def tmChain : TypeMap :=
  [zeroTD,
   { TypeID := 1, Kind := KindStruct, SizeOf := 1, Elem := 0, Fields := [], Name := "Leaf" },
   { TypeID := 2, Kind := KindStruct, SizeOf := 1, Elem := 0, Fields := [⟨"L", 0, 1⟩],
     Name := "Mid" },
   { TypeID := 3, Kind := KindStruct, SizeOf := 2, Elem := 0,
     Fields := [⟨"A", 0, 2⟩, ⟨"B", 1, 2⟩], Name := "Root" }]

def eChain : Engine := ⟨tmChain⟩

def memChain : Mem := ⟨heapOf [(10, 1), (11, 2)], 50⟩

/-- A post-visit callback returning `Error 9`. -/
def postErr : FacadeFn := .mk fun _ _ _ => Context.Error 9

/-- A post-visit callback returning `Continue`. -/
def postCont : FacadeFn := .mk fun _ _ _ => Context.Continue

/-- Schedules a post on the root, then errors on the first `Mid`. -/
def fnErr : FacadeFn := .mk fun tid _ _ =>
  if tid == 3 then Context.Continue.Post postCont
  else if tid == 2 then Context.Error 7
  else Context.Continue

/-- Schedules an erroring post on the root, then halts on `Mid` `A`. -/
def fnHaltErr : FacadeFn := .mk fun tid p _ =>
  if tid == 3 then Context.Continue.Post postErr
  else if tid == 2 && p == 10 then Context.Halt
  else Context.Continue

/-- Schedules a benign post on the root, then halts on `Mid` `A`. -/
def fnHalt : FacadeFn := .mk fun tid p _ =>
  if tid == 3 then Context.Continue.Post postCont
  else if tid == 2 && p == 10 then Context.Halt
  else Context.Continue

/-- C3: an `Error(e)` decision from any callback — main visit,
intercept, side-effect action or post-visit — aborts `Execute` with
exactly `e` (the error return is the zeroed quadruple carrying `e`),
and the erroring invocation is the final entry of the trace: nothing
runs after it, in particular no already-scheduled post-visit.
Conversely an erroring invocation anywhere in the trace forces the
error return. -/
theorem C3_error_aborts_immediately (e : Engine) (fn : FacadeFn) (t : TypeID) (x : Ptr)
    (assignableTo : TypeID) (m : Mem) (fuel : Nat) :
    (∀ er, (e.Execute fn t x assignableTo m fuel).1.errOf = some er →
      (e.Execute fn t x assignableTo m fuel).1 = .ok 0 0 false (some er) ∧
      errTrace (e.Execute fn t x assignableTo m fuel).2.1 er) ∧
    (∀ ev ∈ (e.Execute fn t x assignableTo m fuel).2.1, ev.errOf ≠ none →
      (e.Execute fn t x assignableTo m fuel).1.errOf ≠ none) := by
  obtain ⟨h1, h2⟩ := runE_errOK e fn fuel .enter
    ⟨enterWith e [] none
      [Context.ActionVisitReplace (e.typeData t) x (e.typeData assignableTo)], m, false, none⟩
  refine ⟨h1, ?_⟩
  intro ev hev hne hcontra
  exact hne (h2 hcontra ev hev)

/-- Witness for C3: in the chain demo, erroring on `Mid` returns
exactly error 7 and the trace ends at the erroring visit — the post
already scheduled on the root does not fire. -/
theorem C3_error_aborts_immediately_witness :
    (eChain.Execute fnErr 3 10 3 memChain 100).1 = .ok 0 0 false (some 7) ∧
    errTrace (eChain.Execute fnErr 3 10 3 memChain 100).2.1 7 :=
  (C3_error_aborts_immediately eChain fnErr 3 10 3 memChain 100).1 7 rfl

/-- C9: whenever `Execute` returns a non-nil error, the other three
results are zero values — type id 0, null handle, `changed = false` —
regardless of replacements already applied before the error. -/
theorem C9_error_returns_zero_values (e : Engine) (fn : FacadeFn) (t : TypeID) (x : Ptr)
    (assignableTo : TypeID) (m : Mem) (fuel : Nat) :
    ∀ rt rp ch er, (e.Execute fn t x assignableTo m fuel).1 = .ok rt rp ch (some er) →
      rt = 0 ∧ rp = 0 ∧ ch = false := by
  intro rt rp ch er h
  obtain ⟨h1, _⟩ := runE_errOK e fn fuel .enter
    ⟨enterWith e [] none
      [Context.ActionVisitReplace (e.typeData t) x (e.typeData assignableTo)], m, false, none⟩
  have herr : (e.Execute fn t x assignableTo m fuel).1.errOf = some er := by
    rw [h]; rfl
  have hE : (e.Execute fn t x assignableTo m fuel).1 = .ok 0 0 false (some er) :=
    (h1 er herr).1
  rw [h] at hE
  cases hE
  exact ⟨rfl, rfl, rfl⟩

/-- Witness for C9: a run in which a replacement was already applied to
the root slot (the visit replaces the root, a post then errors) still
returns the zeroed results. -/
theorem C9_error_returns_zero_values_witness :
    ((⟨tmChain⟩ : Engine).Execute
      (.mk fun tid _ _ =>
        if tid == 3 then (Context.Continue.Replace 3 20).Post postErr else Context.Continue)
      3 10 3 memChain 100).1 = .ok 0 0 false (some 9) ∧
    (0 = 0 ∧ 0 = 0 ∧ false = false) :=
  ⟨rfl,
   C9_error_returns_zero_values ⟨tmChain⟩
     (.mk fun tid _ _ =>
       if tid == 3 then (Context.Continue.Replace 3 20).Post postErr else Context.Continue)
     3 10 3 memChain 100 0 0 false 9 rfl⟩

/-- C4 counterexample: a callback returns a `Halt` decision during this
run (the second trace entry), yet `Execute` does not return with a nil
error: the post-visit callback that still fires on the unwind path
returns `Error 9`, which takes precedence, so `Execute` returns error 9
with zeroed results. -/
theorem C4_halt_counterexample :
    (eChain.Execute fnHaltErr 3 10 3 memChain 100).2.1 =
      [.visit 3 10 ⟨none, false, none⟩,
       .visit 2 10 ⟨none, true, none⟩,
       .post 3 10 ⟨some 9, false, none⟩] ∧
    (eChain.Execute fnHaltErr 3 10 3 memChain 100).1 = .ok 0 0 false (some 9) := by
  constructor
  · rfl
  · rfl

/-- C4 (amended): a `Halt` decision makes `Execute` return successfully
with a nil error and the results accumulated so far — provided no
still-firing callback (in particular no post-visit on the unwind path)
returns an `Error` decision, which would take precedence.  No further
slots are entered after the halt, and the post-visit callbacks already
scheduled on the unwind path still fire: universally, an error-free
trace yields a nil error return; in the chain demo, halting on `Mid`
`A` skips `A`'s leaf and the later sibling `B` entirely (the trace
holds no further visit), still fires the root's scheduled post, and
returns the untouched root with no error. -/
theorem C4_halt_returns_partial_results :
    (∀ (e : Engine) (fn : FacadeFn) (t : TypeID) (x : Ptr) (assignableTo : TypeID)
        (m : Mem) (fuel : Nat) (rt : TypeID) (rp : Ptr) (ch : Bool) (er : Option Err),
      cleanEvs (e.Execute fn t x assignableTo m fuel).2.1 →
      (e.Execute fn t x assignableTo m fuel).1 = .ok rt rp ch er → er = none) ∧
    (eChain.Execute fnHalt 3 10 3 memChain 100).2.1 =
      [.visit 3 10 ⟨none, false, none⟩,
       .visit 2 10 ⟨none, true, none⟩,
       .post 3 10 ⟨none, false, none⟩] ∧
    (eChain.Execute fnHalt 3 10 3 memChain 100).1 = .ok 3 10 false none := by
  refine ⟨?_, rfl, rfl⟩
  intro e fn t x assignableTo m fuel rt rp ch er hclean hok
  rcases er with _ | er
  · rfl
  · exfalso
    obtain ⟨h1, _⟩ := runE_errOK e fn fuel .enter
      ⟨enterWith e [] none
        [Context.ActionVisitReplace (e.typeData t) x (e.typeData assignableTo)], m, false, none⟩
    have herr : (e.Execute fn t x assignableTo m fuel).1.errOf = some er := by
      rw [hok]; rfl
    have htr : errTrace (e.Execute fn t x assignableTo m fuel).2.1 er := (h1 er herr).2
    obtain ⟨pre, ev, heq, hev, _⟩ := htr
    have : ev.errOf = none := hclean ev (by rw [heq]; simp)
    rw [this] at hev
    cases hev

/-- Witness for C4 (amended): the universal part applied to the
halt-without-error chain run. -/
theorem C4_halt_returns_partial_results_witness :
    (none : Option Err) = none :=
  C4_halt_returns_partial_results.1 eChain fnHalt 3 10 3 memChain 100 3 10 false none
    (by decide) rfl

/-- The events a step emitted. -/
def StepRes.events : StepRes → List Event
  | .done _ evs => evs
  | .cont _ _ evs => evs

/-- An all-`Continue` callback. -/
def fnCont : FacadeFn := .mk fun _ _ _ => Context.Continue

/-- C5 demo: the self-referencing struct `T{Self *T}` whose `T` at
address 10 stores the pointer 10 back to itself. -/
def tmCyc : TypeMap :=
  [zeroTD,
   { TypeID := 1, Kind := KindStruct, SizeOf := 1, Elem := 0, Fields := [⟨"Self", 0, 2⟩],
     Name := "T" },
   { TypeID := 2, Kind := KindPointer, SizeOf := 1, Elem := 1, Fields := [], Name := "" }]

def eCyc : Engine := ⟨tmCyc⟩

def memCyc : Mem := ⟨heapOf [(10, 10)], 50⟩

/-- C5: on entering a slot, a hit of the linear scan over the ancestor
frames' active slots (same type id and handle, `cycleHit`) skips the
node straight to `nextSlot`: the state is untouched, no frame is
pushed, and no callback is invoked (no event).  On the self-referencing
demo graph, the traversal therefore terminates (within fuel 100),
returns the node unchanged with no error, and the callback ran exactly
once on the repeated node. -/
theorem C5_cycle_guard_skips_repeat :
    (∀ (e : Engine) (fn : FacadeFn) (curFrame : Frame) (rest : Stack) (m : Mem)
        (hl : Bool) (rt : Option Frame),
      curFrame.Active.call = none →
      cycleHit (curFrame :: rest) curFrame.Active = true →
      stepEnter e fn ⟨curFrame :: rest, m, hl, rt⟩ =
        .cont .nextSlot ⟨curFrame :: rest, m, hl, rt⟩ []) ∧
    (eCyc.Execute fnCont 1 10 1 memCyc 100).1 = .ok 1 10 false none ∧
    (eCyc.Execute fnCont 1 10 1 memCyc 100).2.1 = [.visit 1 10 ⟨none, false, none⟩] := by
  refine ⟨?_, rfl, rfl⟩
  intro e fn curFrame rest m hl rt hcall hcyc
  unfold stepEnter
  dsimp only
  rw [hcall, hcyc]
  rfl

/-- C5 witness frame: the active slot holds the self-referencing `T`
at 10. -/
def frameT : Frame :=
  { Count := 1, Idx := 0, Intercept := none,
    slots := [Context.ActionVisitReplace (eCyc.typeData 1) 10 (eCyc.typeData 1)] }

/-- Witness for C5: with an ancestor frame whose active slot holds the
same `(type id, handle)` pair, the enter step skips to `nextSlot`
untouched. -/
theorem C5_cycle_guard_skips_repeat_witness :
    stepEnter eCyc fnCont ⟨[frameT, frameT], memCyc, false, none⟩ =
      .cont .nextSlot ⟨[frameT, frameT], memCyc, false, none⟩ [] :=
  C5_cycle_guard_skips_repeat.1 eCyc fnCont frameT [frameT] memCyc false none rfl (by decide)

/-- C7 demo frame: a single pointer slot at handle 10 over `tmCyc`,
with the pointer word null. -/
def framePtrNull : Frame :=
  { Count := 1, Idx := 0, Intercept := none,
    slots := [Context.ActionVisitReplace (eCyc.typeData 2) 10 (eCyc.typeData 2)] }

/-- C7: in the `enter` dispatch, a null pointer, a zero-length slice,
and a tagged union whose concrete type id is 0 or whose payload is null
are all leaves: the step pushes no child frame, invokes no callback
(no event) and goes straight to `unwind` with the state untouched. -/
theorem C7_null_empty_are_leaves :
    (∀ (e : Engine) (fn : FacadeFn) (curFrame : Frame) (rest : Stack) (m : Mem)
        (hl : Bool) (rt : Option Frame),
      curFrame.Active.call = none →
      cycleHit (curFrame :: rest) curFrame.Active = false →
      ((curFrame.Active.td.Kind = KindPointer ∧ m.heap curFrame.Active.value = 0) ∨
       (curFrame.Active.td.Kind = KindSlice ∧ m.heap (curFrame.Active.value + 1) = 0) ∨
       (curFrame.Active.td.Kind = KindInterface ∧
         (m.heap curFrame.Active.value = 0 ∨ m.heap (curFrame.Active.value + 1) = 0))) →
      stepEnter e fn ⟨curFrame :: rest, m, hl, rt⟩ =
        .cont .unwind ⟨curFrame :: rest, m, hl, rt⟩ []) := by
  intro e fn curFrame rest m hl rt hcall hcyc hleaf
  unfold stepEnter
  dsimp only
  rw [hcall, hcyc]
  rcases hleaf with ⟨hk, hv⟩ | ⟨hk, hv⟩ | ⟨hk, hv⟩ <;> rw [hk] <;> dsimp only
  · rw [hv]; rfl
  · rw [hv]; rfl
  · rcases hv with hv | hv
    · rw [if_pos (Or.inl hv)]; rfl
    · rw [if_pos (Or.inr hv)]; rfl

/-- Witness for C7: the null-pointer frame over the cyclic demo table
(heap address 10 holds 0 in the empty heap). -/
theorem C7_null_empty_are_leaves_witness :
    stepEnter eCyc fnCont ⟨[framePtrNull], ⟨heapOf [], 50⟩, false, none⟩ =
      .cont .unwind ⟨[framePtrNull], ⟨heapOf [], 50⟩, false, none⟩ [] :=
  C7_null_empty_are_leaves eCyc fnCont framePtrNull [] ⟨heapOf [], 50⟩ false none
    rfl (by decide) (Or.inl ⟨rfl, rfl⟩)

theorem stepStructMain_events (e : Engine) (fn : FacadeFn) (c : Config) (rest : Stack)
    (frame1 : Frame) (slot1 : Action) (halting1 : Bool) (iev : List Event) :
    ∃ tl, (stepStructMain e fn c rest frame1 slot1 halting1 iev).events = iev ++ tl := by
  unfold stepStructMain
  dsimp only
  split
  · exact ⟨_, rfl⟩
  · split
    · exact ⟨_, rfl⟩
    · split
      · split
        · exact ⟨_, rfl⟩
        · exact ⟨_, rfl⟩
      · split
        · exact ⟨_, rfl⟩
        · exact ⟨_, rfl⟩

/-! ## The C6 demo: three nested structs

`N` (id 3) holds `C` (id 2) holds `G` (id 1), all stored inline at
address 10.  The interceptors registered along the way replace `G` with
the leaves at 100 resp. 101, which makes the replacement pair of their
trace events identify which interceptor ran at each descent. -/

def tmNest : TypeMap :=
  [zeroTD,
   { TypeID := 1, Kind := KindStruct, SizeOf := 1, Elem := 0, Fields := [], Name := "G" },
   { TypeID := 2, Kind := KindStruct, SizeOf := 1, Elem := 0, Fields := [⟨"G", 0, 1⟩],
     Name := "C" },
   { TypeID := 3, Kind := KindStruct, SizeOf := 1, Elem := 0, Fields := [⟨"C", 0, 2⟩],
     Name := "N" }]

def eNest : Engine := ⟨tmNest⟩

def memNest : Mem := ⟨heapOf [(10, 42), (100, 99), (101, 77)], 200⟩

/-- Interceptor replacing any `G` with the leaf at 100. -/
def ifn : FacadeFn := .mk fun tid _ _ =>
  if tid == 1 then Context.Continue.Replace 1 100 else Context.Continue

/-- Interceptor replacing any `G` with the leaf at 101. -/
def ifn2 : FacadeFn := .mk fun tid _ _ =>
  if tid == 1 then Context.Continue.Replace 1 101 else Context.Continue

/-- Registers `ifn` at `N`; nothing overrides below. -/
def fnIceptA : FacadeFn := .mk fun tid _ _ =>
  if tid == 3 then Context.Continue.Intercept ifn else Context.Continue

/-- Registers `ifn` at `N` and overrides with `ifn2` at `C`. -/
def fnIceptB : FacadeFn := .mk fun tid _ _ =>
  if tid == 3 then Context.Continue.Intercept ifn
  else if tid == 2 then Context.Continue.Intercept ifn2
  else Context.Continue

/-- C6: the intercept mechanism.  (i) When the enclosing frame carries
intercept `fn`, entering a struct slot invokes `fn` on the node first:
the step's trace starts with `fn`'s invocation, before the node's own
visit and before any descent into the node's children.  (ii) A child
frame entered without an explicit intercept inherits the enclosing
frame's, and one entered with a decision's `Intercept(g)` carries `g`
— so an intercept reaches every descendant until overridden.  (iii) In
the nested demo, the intercept registered at `N` runs before the
descent into child `C` and — inherited across `C`, whose own decision
carries no intercept — before the descent into grandchild `G` (whose
intercept event carries `ifn`'s replacement pair `(1, 100)`); when `C`'s
decision overrides with `ifn2`, the interception of `G` is `ifn2`'s
(replacement pair `(1, 101)`). -/
theorem C6_intercept_before_descent_inherited :
    (∀ (e : Engine) (fn : FacadeFn) (c : Config) (curFrame : Frame) (rest : Stack)
        (curSlot : Action) (g : FacadeFn), curFrame.Intercept = some g →
      ∃ tl, (stepStruct e fn c curFrame rest curSlot).events =
        Event.icept curSlot.td.TypeID curSlot.value
          (g.app curSlot.td.TypeID curSlot.value c.mem.heap).summary :: tl) ∧
    (∀ (e : Engine) (f : Frame) (s : Stack) (as : List Action),
      ∃ fr, enterWith e (f :: s) none as = fr :: f :: s ∧ fr.Intercept = f.Intercept) ∧
    (∀ (e : Engine) (s : Stack) (as : List Action) (g2 : FacadeFn),
      ∃ fr, enterWith e s (some g2) as = fr :: s ∧ fr.Intercept = some g2) ∧
    (eNest.Execute fnIceptA 3 10 3 memNest 100).2.1 =
      [.visit 3 10 ⟨none, false, none⟩,
       .icept 2 10 ⟨none, false, none⟩,
       .visit 2 10 ⟨none, false, none⟩,
       .icept 1 10 ⟨none, false, some (1, 100)⟩,
       .visit 1 100 ⟨none, false, none⟩] ∧
    (eNest.Execute fnIceptB 3 10 3 memNest 100).2.1 =
      [.visit 3 10 ⟨none, false, none⟩,
       .icept 2 10 ⟨none, false, none⟩,
       .visit 2 10 ⟨none, false, none⟩,
       .icept 1 10 ⟨none, false, some (1, 101)⟩,
       .visit 1 101 ⟨none, false, none⟩] := by
  refine ⟨?_, fun e f s as => ⟨_, rfl, rfl⟩, fun e s as g2 => ⟨_, rfl, rfl⟩, rfl, rfl⟩
  intro e fn c curFrame rest curSlot g hg
  unfold stepStruct
  rw [hg]
  dsimp only
  split
  · exact ⟨_, rfl⟩
  · obtain ⟨tl, htl⟩ := stepStructMain_events e fn c rest _ _ _
      [Event.icept curSlot.td.TypeID curSlot.value
        (g.app curSlot.td.TypeID curSlot.value c.mem.heap).summary]
    exact ⟨tl, htl⟩

/-- Witness for C6: the intercept-first part at a concrete struct
configuration (the `C`-slot frame of the nested demo, carrying `ifn`). -/
theorem C6_intercept_before_descent_inherited_witness :
    ∃ tl, (stepStruct eNest fnIceptA
        ⟨[⟨1, 0, some ifn, [Context.ActionVisitReplace (eNest.typeData 2) 10 (eNest.typeData 2)]⟩],
         memNest, false, none⟩
        ⟨1, 0, some ifn, [Context.ActionVisitReplace (eNest.typeData 2) 10 (eNest.typeData 2)]⟩
        [] (Context.ActionVisitReplace (eNest.typeData 2) 10 (eNest.typeData 2))).events =
      Event.icept (Context.ActionVisitReplace (eNest.typeData 2) 10 (eNest.typeData 2)).td.TypeID
        (Context.ActionVisitReplace (eNest.typeData 2) 10 (eNest.typeData 2)).value
        (ifn.app (Context.ActionVisitReplace (eNest.typeData 2) 10 (eNest.typeData 2)).td.TypeID
          (Context.ActionVisitReplace (eNest.typeData 2) 10 (eNest.typeData 2)).value
          memNest.heap).summary :: tl :=
  C6_intercept_before_descent_inherited.1 eNest fnIceptA
    ⟨[⟨1, 0, some ifn, [Context.ActionVisitReplace (eNest.typeData 2) 10 (eNest.typeData 2)]⟩],
     memNest, false, none⟩
    ⟨1, 0, some ifn, [Context.ActionVisitReplace (eNest.typeData 2) 10 (eNest.typeData 2)]⟩
    [] (Context.ActionVisitReplace (eNest.typeData 2) 10 (eNest.typeData 2)) ifn rfl

/-! ## Copy-on-write: the engine never writes pre-existing memory

Every write `Execute` performs (fresh structs, slices, pointer cells,
interface cells, and the copies into them) targets addresses at or
above the allocation watermark the call started with.  `MemPre n m m2`
states that `m2` agrees with `m` below `n` and the watermark has not
decreased. -/

def MemPre (n : Nat) (m m2 : Mem) : Prop :=
  (∀ a, a < n → m2.heap a = m.heap a) ∧ m.next ≤ m2.next

theorem MemPre.refl (n : Nat) (m : Mem) : MemPre n m m := ⟨fun _ _ => rfl, le_refl _⟩

theorem MemPre.trans {n : Nat} {m1 m2 m3 : Mem} (h1 : MemPre n m1 m2) (h2 : MemPre n m2 m3) :
    MemPre n m1 m3 :=
  ⟨fun a ha => (h2.1 a ha).trans (h1.1 a ha), le_trans h1.2 h2.2⟩

theorem MemPre.mono {n k : Nat} {m m2 : Mem} (h : n ≤ k) (hp : MemPre k m m2) :
    MemPre n m m2 :=
  ⟨fun a ha => hp.1 a (lt_of_lt_of_le ha h), hp.2⟩

theorem write_pre {n : Nat} (m : Mem) {a : Nat} (v : Nat) (h : n ≤ a) :
    MemPre n m (m.write a v) := by
  refine ⟨fun i hi => ?_, le_refl _⟩
  unfold Mem.write
  dsimp only
  rw [if_neg]
  omega

theorem copy_pre {n : Nat} (m : Mem) {dst : Nat} (src len : Nat) (h : n ≤ dst) :
    MemPre n m (m.copyWords dst src len) := by
  refine ⟨fun i hi => ?_, le_refl _⟩
  unfold Mem.copyWords
  dsimp only
  rw [if_neg]
  omega

theorem alloc_pre {n : Nat} (m : Mem) (k : Nat) (h : n ≤ m.next) :
    MemPre n m (m.alloc k).2 := by
  refine ⟨fun i hi => ?_, ?_⟩
  · unfold Mem.alloc
    dsimp only
    rw [if_neg]
    omega
  · unfold Mem.alloc
    dsimp only
    omega

theorem foldl_pre {α : Type} {n : Nat} (f : Mem → α → Mem)
    (h : ∀ mm x, MemPre n mm (f mm x)) :
    ∀ (l : List α) (m : Mem), MemPre n m (l.foldl f m) := by
  intro l
  induction l with
  | nil => intro m; exact MemPre.refl n m
  | cons x xs ih => intro m; exact (h m x).trans (ih (f m x))

theorem reconstruct_pre (e : Engine) (m : Mem) (a : Action) (r : Frame) {a2 : Action}
    {m2 : Mem} (h : reconstruct e m a r = .ok (a2, m2)) : MemPre m.next m m2 := by
  unfold reconstruct at h
  split at h
  · -- struct: fresh zero instance, shallow copy, field copies
    rcases h with ⟨⟩
    refine ((alloc_pre m a.td.SizeOf (le_refl _)).trans
      ((copy_pre _ a.value a.td.SizeOf ?hb).trans
        (foldl_pre _ ?hf _ _))).mono (le_refl _) |>.mono (le_refl _)
    case hb => exact le_refl _
    case hf =>
      intro mm p
      exact copy_pre mm _ _ (Nat.le_add_right _ _)
  · rcases h with ⟨⟩
    exact (alloc_pre m 1 (le_refl _)).trans (write_pre _ _ (le_refl _))
  · rcases h with ⟨⟩
    refine ((alloc_pre m _ (le_refl _)).trans
      ((alloc_pre _ 2 ?h2).trans
        (((write_pre _ _ ?h3).trans (write_pre _ _ ?h4)).trans (foldl_pre _ ?h5 _ _))))
    case h2 => exact Nat.le_add_right _ _
    case h3 => simp only [Mem.alloc]; omega
    case h4 => simp only [Mem.alloc, Mem.write]; omega
    case h5 =>
      intro mm i
      exact copy_pre mm _ _ (Nat.le_add_right _ _)
  · rcases h with ⟨⟩
    exact (alloc_pre m 2 (le_refl _)).trans
      ((write_pre _ _ (le_refl _)).trans (write_pre _ _ (by omega)))
  · cases h

/-- What a step does to memory: a continuation's memory extends the
current one without touching anything below its watermark. -/
def stepMemOK (c : Config) : StepRes → Prop
  | .cont _ c2 _ => MemPre c.mem.next c.mem c2.mem
  | .done _ _ => True

theorem stepStructMain_memOK (e : Engine) (fn : FacadeFn) (c : Config) (rest : Stack)
    (frame1 : Frame) (slot1 : Action) (halting1 : Bool) (iev : List Event) :
    stepMemOK c (stepStructMain e fn c rest frame1 slot1 halting1 iev) := by
  unfold stepStructMain
  dsimp only
  split
  · trivial
  · split
    · exact MemPre.refl _ _
    · split
      · split
        · exact MemPre.refl _ _
        · exact MemPre.refl _ _
      · split
        · exact MemPre.refl _ _
        · exact MemPre.refl _ _

theorem stepStruct_memOK (e : Engine) (fn : FacadeFn) (c : Config) (curFrame : Frame)
    (rest : Stack) (curSlot : Action) :
    stepMemOK c (stepStruct e fn c curFrame rest curSlot) := by
  unfold stepStruct
  split
  · exact stepStructMain_memOK e fn c rest _ _ _ _
  · dsimp only
    split
    · trivial
    · exact stepStructMain_memOK e fn c rest _ _ _ _

theorem stepEnter_memOK (e : Engine) (fn : FacadeFn) (c : Config) :
    stepMemOK c (stepEnter e fn c) := by
  unfold stepEnter
  split
  · trivial
  · dsimp only
    split
    · split
      · trivial
      · exact MemPre.refl _ _
    · split
      · exact MemPre.refl _ _
      · split
        · split
          · exact MemPre.refl _ _
          · exact MemPre.refl _ _
        · exact stepStruct_memOK e fn c _ _ _
        · split
          · exact MemPre.refl _ _
          · exact MemPre.refl _ _
        · split
          · exact MemPre.refl _ _
          · exact MemPre.refl _ _
        · trivial

theorem stepUnwindTail_memOK (e : Engine) (c : Config) (curFrame : Frame) (rest : Stack)
    (slot1 : Action) (halting1 : Bool) (pev : List Event) :
    stepMemOK c (stepUnwindTail e c curFrame rest slot1 halting1 pev) := by
  unfold stepUnwindTail
  dsimp only
  split
  · split
    · exact MemPre.refl _ _
    · split
      · trivial
      · split
        · trivial
        next slot2 m2 hrec => exact reconstruct_pre e c.mem slot1 _ hrec
  · exact MemPre.refl _ _

theorem stepUnwind_memOK (e : Engine) (c : Config) : stepMemOK c (stepUnwind e c) := by
  unfold stepUnwind
  split
  · trivial
  · dsimp only
    split
    · exact stepUnwindTail_memOK e c _ _ _ _ _
    · split
      · trivial
      · exact stepUnwindTail_memOK e c _ _ _ _ _

theorem stepNext_memOK (c : Config) : stepMemOK c (stepNext c) := by
  unfold stepNext
  split
  · trivial
  · dsimp only
    split
    · split
      · trivial
      · exact MemPre.refl _ _
    · exact MemPre.refl _ _

theorem step_memOK (e : Engine) (fn : FacadeFn) (l : Label) (c : Config) :
    stepMemOK c (step e fn l c) := by
  cases l
  · exact stepEnter_memOK e fn c
  · exact stepUnwind_memOK e c
  · exact stepNext_memOK c

/-- Run-level copy-on-write: memory below the initial watermark is
never written, and the watermark only grows. -/
theorem runE_memPre (e : Engine) (fn : FacadeFn) :
    ∀ (fuel : Nat) (l : Label) (c : Config) (n : Nat), n ≤ c.mem.next →
      MemPre n c.mem (runE e fn fuel l c).2.2 := by
  intro fuel
  induction fuel with
  | zero => intro l c n _; exact MemPre.refl n c.mem
  | succ k ih =>
    intro l c n hn
    have hm := step_memOK e fn l c
    rcases hstep : step e fn l c with ⟨o, evs⟩ | ⟨l2, c2, evs⟩
    · simp only [runE, hstep]
      exact MemPre.refl n c.mem
    · rw [hstep] at hm
      simp only [runE, hstep]
      have h1 : MemPre n c.mem c2.mem := hm.mono hn
      exact h1.trans (ih l2 c2 n (le_trans hn hm.2))

/-! ## The C2 demo: replace a deep leaf

The spec's end-to-end example: `Leaf` (id 1, one non-traversable word),
`*Leaf` (id 2), `Root` (id 3) with two pointer fields `A` (offset 0)
and `B` (offset 1).  The original graph: `Leaf` 5 at 10, `Leaf` 7 at
20, `Root` at 30 with `A = 10`, `B = 20`.  The replacement `Leaf` 6
lives at 40 (callback-allocated, hence below the watermark 50). -/

def tmShare : TypeMap :=
  [zeroTD,
   { TypeID := 1, Kind := KindStruct, SizeOf := 1, Elem := 0, Fields := [], Name := "Leaf" },
   { TypeID := 2, Kind := KindPointer, SizeOf := 1, Elem := 1, Fields := [], Name := "" },
   { TypeID := 3, Kind := KindStruct, SizeOf := 2, Elem := 0,
     Fields := [⟨"A", 0, 2⟩, ⟨"B", 1, 2⟩], Name := "Root" }]

def eShare : Engine := ⟨tmShare⟩

def memShare : Mem := ⟨heapOf [(10, 5), (20, 7), (30, 10), (31, 20), (40, 6)], 50⟩

/-- Replaces any `Leaf` holding 5 by the `Leaf` at 40. -/
def fnRepl : FacadeFn := .mk fun tid p h =>
  if tid == 1 && h p == 5 then Context.Continue.Replace 1 40 else Context.Continue

/-- C2: `Replace(v)` semantics.  Universally, `Execute` never writes an
address below the allocation watermark it was called with — original
nodes and untouched siblings are never mutated in place, and the
watermark only grows (all rebuilding is fresh allocation).  In the
deep-leaf demo: the replaced leaf's own children are not auto-visited
(the trace holds no visit at the supplied handle's contents beyond the
replaced node itself — traversal proceeds to the sibling), the result
is a changed root at the fresh address 51 (at or above the watermark
50), whose rebuilt `A` field holds the supplied handle 40 as-is and
whose untouched `B` field still holds the original leaf's address 20
(shared by reference), while the original root (30, 31), the original
leaves (10, 20) and the replacement (40) are bit-for-bit unchanged and
the fresh pointer cell 50 holds the supplied handle. -/
theorem C2_replace_rebuilds_ancestors_shares_siblings :
    (∀ (e : Engine) (fn : FacadeFn) (t : TypeID) (x : Ptr) (assignableTo : TypeID)
        (m : Mem) (fuel : Nat),
      MemPre m.next m (e.Execute fn t x assignableTo m fuel).2.2) ∧
    (eShare.Execute fnRepl 3 30 3 memShare 100).1 = .ok 3 51 true none ∧
    (eShare.Execute fnRepl 3 30 3 memShare 100).2.1 =
      [.visit 3 30 ⟨none, false, none⟩,
       .visit 1 10 ⟨none, false, some (1, 40)⟩,
       .visit 1 20 ⟨none, false, none⟩] ∧
    (eShare.Execute fnRepl 3 30 3 memShare 100).2.2.heap 51 = 40 ∧
    (eShare.Execute fnRepl 3 30 3 memShare 100).2.2.heap 52 = 20 ∧
    (eShare.Execute fnRepl 3 30 3 memShare 100).2.2.heap 50 = 40 ∧
    (eShare.Execute fnRepl 3 30 3 memShare 100).2.2.next = 53 := by
  refine ⟨?_, rfl, rfl, rfl, rfl, rfl, rfl⟩
  intro e fn t x assignableTo m fuel
  exact runE_memPre e fn fuel .enter
    ⟨enterWith e [] none
      [Context.ActionVisitReplace (e.typeData t) x (e.typeData assignableTo)], m, false, none⟩
    m.next (le_refl _)

/-- Witness for C2: the universal no-in-place-mutation part applied to
the demo run — the original root, both original leaves and the
replacement leaf read back unchanged, and the watermark grew. -/
theorem C2_replace_rebuilds_ancestors_shares_siblings_witness :
    (eShare.Execute fnRepl 3 30 3 memShare 100).2.2.heap 30 = 10 ∧
    (eShare.Execute fnRepl 3 30 3 memShare 100).2.2.heap 31 = 20 ∧
    (eShare.Execute fnRepl 3 30 3 memShare 100).2.2.heap 10 = 5 ∧
    (eShare.Execute fnRepl 3 30 3 memShare 100).2.2.heap 20 = 7 ∧
    (eShare.Execute fnRepl 3 30 3 memShare 100).2.2.heap 40 = 6 ∧
    memShare.next ≤ (eShare.Execute fnRepl 3 30 3 memShare 100).2.2.next := by
  have h := C2_replace_rebuilds_ancestors_shares_siblings.1 eShare fnRepl 3 30 3 memShare 100
  refine ⟨?_, ?_, ?_, ?_, ?_, h.2⟩
  · rw [h.1 30 (by decide)]; rfl
  · rw [h.1 31 (by decide)]; rfl
  · rw [h.1 10 (by decide)]; rfl
  · rw [h.1 20 (by decide)]; rfl
  · rw [h.1 40 (by decide)]; rfl

/-! ## The all-`Continue` run

Under a callback that always returns the default `Continue` decision,
no slot is ever dirtied, replaced, or given a post or side-effect
callback, no frame carries an intercept, and the bootstrap frame keeps
the untouched root slot — so the final return is the root, unchanged,
with no error. -/

/-- A slot that carries no callback state and no dirt. -/
def cleanA (a : Action) : Prop :=
  a.call = none ∧ a.post = none ∧ a.dirty = false ∧ a.replaced = false

/-- A frame with no intercept whose slots are all clean. -/
def cleanF (f : Frame) : Prop :=
  f.Intercept = none ∧ ∀ a ∈ f.slots, cleanA a

/-- The bottom (bootstrap) frame still holds exactly the root slot and
has not advanced. -/
def botInv (s : Stack) (a0 : Action) : Prop :=
  ∃ pre f, s = pre ++ [f] ∧ f.Count = 1 ∧ f.Idx = 0 ∧ f.slots = [a0]

def cleanCfg (a0 : Action) (c : Config) : Prop :=
  c.halting = false ∧ (∀ f ∈ c.stack, cleanF f) ∧ botInv c.stack a0

/-- What a step of an all-`Continue` run can produce. -/
def stepCleanOK (a0 : Action) : StepRes → Prop
  | .cont _ c2 _ => cleanCfg a0 c2
  | .done o _ => o = .ok a0.td.TypeID a0.value false none ∨ ∃ msg, o = .panicked msg

theorem apply_continue (e : Engine) (a : Action) : a.apply e Context.Continue = .ok a := rfl

theorem set_getD_self {α : Type} : ∀ (l : List α) (i : Nat) (d : α),
    l.set i (l.getD i d) = l
  | [], _, _ => rfl
  | x :: xs, 0, d => rfl
  | x :: xs, i + 1, d => by
    show x :: (xs.set i (xs.getD i d)) = x :: xs
    rw [set_getD_self xs i d]

theorem writeActive_active (f : Frame) : f.writeActive f.Active = f := by
  unfold Frame.writeActive Frame.Active Frame.Slot
  cases f with
  | mk Count Idx Intercept slots =>
    show Frame.mk _ _ _ (slots.set Idx (slots.getD Idx Action.initial)) = _
    rw [set_getD_self slots Idx Action.initial]

theorem getD_mem {α : Type} : ∀ (l : List α) (i : Nat) (d : α), i < l.length →
    l.getD i d ∈ l
  | x :: xs, 0, d, _ => List.mem_cons_self x xs
  | x :: xs, i + 1, d, h =>
    List.mem_cons_of_mem x (getD_mem xs i d (by simpa using h))

theorem getD_big {α : Type} : ∀ (l : List α) (i : Nat) (d : α), l.length ≤ i →
    l.getD i d = d
  | [], _, _, _ => rfl
  | x :: xs, i + 1, d, h => getD_big xs i d (by simpa using h)

theorem cleanA_Active {f : Frame} (h : cleanF f) : cleanA f.Active := by
  unfold Frame.Active Frame.Slot
  rcases lt_or_ge f.Idx f.slots.length with hl | hl
  · exact h.2 _ (getD_mem f.slots f.Idx Action.initial hl)
  · rw [getD_big f.slots f.Idx Action.initial hl]
    exact ⟨rfl, rfl, rfl, rfl⟩

theorem cleanA_AVR (td : TypeData) (p : Ptr) (assign : TypeData) :
    cleanA (Context.ActionVisitReplace td p assign) := ⟨rfl, rfl, rfl, rfl⟩

theorem resolveAction_clean {a : Action} (e : Engine) (h : cleanA a) :
    cleanA (resolveAction e a) := by
  unfold resolveAction
  rcases ht : a.typeData with _ | td
  · exact ⟨h.1, h.2.1, h.2.2.1, h.2.2.2⟩
  · exact h

theorem botInv_cons {s : Stack} {a0 : Action} (f : Frame) (h : botInv s a0) :
    botInv (f :: s) a0 := by
  obtain ⟨pre, b, rfl, hc, hi, hs⟩ := h
  exact ⟨f :: pre, b, rfl, hc, hi, hs⟩

theorem botInv_tail {f : Frame} {s : Stack} {a0 : Action} (h : botInv (f :: s) a0)
    (hne : s ≠ []) : botInv s a0 := by
  obtain ⟨pre, b, heq, hc, hi, hs⟩ := h
  cases pre with
  | nil =>
    simp at heq
    rcases heq with ⟨rfl, rfl⟩
    exact absurd rfl hne
  | cons p ps =>
    simp only [List.cons_append, List.cons.injEq] at heq
    exact ⟨ps, b, heq.2, hc, hi, hs⟩

theorem enterWith_clean (e : Engine) (s : Stack) (as : List Action) (a0 : Action)
    (hs : ∀ f ∈ s, cleanF f) (hbot : botInv s a0) (has : ∀ a ∈ as, cleanA a) :
    (∀ f ∈ enterWith e s none as, cleanF f) ∧ botInv (enterWith e s none as) a0 := by
  cases s with
  | nil =>
    obtain ⟨pre, b, hseq, _⟩ := hbot
    exact absurd hseq.symm (by simp)
  | cons f fs =>
    have heq : enterWith e (f :: fs) none as =
        ⟨as.length, 0, f.Intercept, as.map (resolveAction e)⟩ :: f :: fs := rfl
    rw [heq]
    constructor
    · intro fr hfr
      rcases List.mem_cons.mp hfr with rfl | hfr
      · refine ⟨(hs f (List.mem_cons_self f fs)).1, ?_⟩
        intro a ha
        obtain ⟨x, hx, rfl⟩ := List.mem_map.mp ha
        exact resolveAction_clean e (has x hx)
      · exact hs fr hfr
    · exact botInv_cons _ hbot

theorem push_clean (e : Engine) (s : Stack) (as : List Action) (a0 : Action) (m : Mem)
    (hl : Bool) (rt : Option Frame) (hhalt : hl = false)
    (hs : ∀ f ∈ s, cleanF f) (hbot : botInv s a0)
    (has : ∀ a ∈ as, cleanA a) :
    cleanCfg a0 ⟨enterWith e s none as, m, hl, rt⟩ := by
  have h := enterWith_clean e s as a0 hs hbot has
  exact ⟨hhalt, h.1, h.2⟩

theorem stepStructMain_clean (e : Engine) (fn : FacadeFn) (c : Config) (rest : Stack)
    (frame1 : Frame) (a0 : Action)
    (hfn : ∀ tid p h, fn.app tid p h = Context.Continue)
    (hhalt : c.halting = false)
    (hcf : cleanF frame1) (hrest : ∀ f ∈ rest, cleanF f)
    (hbot : botInv (frame1 :: rest) a0) :
    stepCleanOK a0 (stepStructMain e fn c rest frame1 frame1.Active c.halting []) := by
  have hstack : ∀ f ∈ frame1 :: rest, cleanF f := by
    intro f hf
    rcases List.mem_cons.mp hf with rfl | hf
    · exact hcf
    · exact hrest f hf
  unfold stepStructMain
  rw [hfn, hhalt]
  dsimp only
  rw [apply_continue e frame1.Active]
  dsimp only
  rw [writeActive_active]
  have hh : ((false || Context.Continue.halt) || Context.Continue.skip) = false := rfl
  rw [hh, if_neg (by simp)]
  dsimp only [Context.Continue]
  split
  · exact ⟨rfl, hstack, hbot⟩
  · have hpush := enterWith_clean e (frame1 :: rest)
      (frame1.Active.td.Fields.map fun f =>
        Context.ActionVisitReplace (e.typeData f.Target) (frame1.Active.value + f.Offset)
          (e.typeData f.Target)) a0 hstack hbot (by
        intro a ha
        obtain ⟨x, hx, rfl⟩ := List.mem_map.mp ha
        exact cleanA_AVR _ _ _)
    exact ⟨rfl, hpush.1, hpush.2⟩

theorem stepStruct_clean (e : Engine) (fn : FacadeFn) (c : Config) (rest : Stack)
    (curFrame : Frame) (a0 : Action)
    (hfn : ∀ tid p h, fn.app tid p h = Context.Continue)
    (hhalt : c.halting = false)
    (hcf : cleanF curFrame) (hrest : ∀ f ∈ rest, cleanF f)
    (hbot : botInv (curFrame :: rest) a0) :
    stepCleanOK a0 (stepStruct e fn c curFrame rest curFrame.Active) := by
  unfold stepStruct
  rw [hcf.1]
  exact stepStructMain_clean e fn c rest curFrame a0 hfn hhalt hcf hrest hbot

theorem stepEnter_clean (e : Engine) (fn : FacadeFn) (c : Config) (a0 : Action)
    (hfn : ∀ tid p h, fn.app tid p h = Context.Continue)
    (hc : cleanCfg a0 c) : stepCleanOK a0 (stepEnter e fn c) := by
  obtain ⟨hhalt, hstack, hbot⟩ := hc
  unfold stepEnter
  rcases hs : c.stack with _ | ⟨curFrame, rest⟩
  · exact Or.inr ⟨_, rfl⟩
  · rw [hs] at hstack hbot
    have hcf : cleanF curFrame := hstack curFrame (List.mem_cons_self _ _)
    have hrest : ∀ f ∈ rest, cleanF f := fun f hf => hstack f (List.mem_cons_of_mem _ hf)
    dsimp only
    rw [(cleanA_Active hcf).1]
    dsimp only
    split
    · exact ⟨hhalt, hs ▸ hstack, hs ▸ hbot⟩
    · split
      · -- pointer
        split
        · exact ⟨hhalt, hs ▸ hstack, hs ▸ hbot⟩
        · rw [hcf.1]
          refine push_clean e (curFrame :: rest) _ a0 c.mem c.halting c.returning hhalt
            hstack hbot ?_
          intro a ha
          rcases List.mem_singleton.mp ha with rfl
          exact cleanA_AVR _ _ _
      · -- struct
        exact stepStruct_clean e fn c rest curFrame a0 hfn hhalt hcf hrest hbot
      · -- slice
        split
        · exact ⟨hhalt, hs ▸ hstack, hs ▸ hbot⟩
        · rw [hcf.1]
          refine push_clean e (curFrame :: rest) _ a0 c.mem c.halting c.returning hhalt
            hstack hbot ?_
          intro a ha
          obtain ⟨x, hx, rfl⟩ := List.mem_map.mp ha
          exact cleanA_AVR _ _ _
      · -- interface
        split
        · exact ⟨hhalt, hs ▸ hstack, hs ▸ hbot⟩
        · rw [hcf.1]
          refine push_clean e (curFrame :: rest) _ a0 c.mem c.halting c.returning hhalt
            hstack hbot ?_
          intro a ha
          rcases List.mem_singleton.mp ha with rfl
          exact cleanA_AVR _ _ _
      · -- opaque
        exact Or.inr ⟨_, rfl⟩

theorem stepUnwindTail_clean (e : Engine) (c : Config) (curFrame : Frame) (rest : Stack)
    (a0 : Action) (hhalt : c.halting = false)
    (hcf : cleanF curFrame) (hrest : ∀ f ∈ rest, cleanF f)
    (hbot : botInv (curFrame :: rest) a0) :
    stepCleanOK a0 (stepUnwindTail e c curFrame rest curFrame.Active c.halting []) := by
  unfold stepUnwindTail
  rw [(cleanA_Active hcf).2.2.1, if_neg (by simp), writeActive_active, hhalt]
  refine ⟨rfl, ?_, hbot⟩
  intro f hf
  rcases List.mem_cons.mp hf with rfl | hf
  · exact hcf
  · exact hrest f hf

theorem stepUnwind_clean (e : Engine) (c : Config) (a0 : Action)
    (hc : cleanCfg a0 c) : stepCleanOK a0 (stepUnwind e c) := by
  obtain ⟨hhalt, hstack, hbot⟩ := hc
  unfold stepUnwind
  rcases hs : c.stack with _ | ⟨curFrame, rest⟩
  · exact Or.inr ⟨_, rfl⟩
  · rw [hs] at hstack hbot
    have hcf : cleanF curFrame := hstack curFrame (List.mem_cons_self _ _)
    have hrest : ∀ f ∈ rest, cleanF f := fun f hf => hstack f (List.mem_cons_of_mem _ hf)
    dsimp only
    rw [(cleanA_Active hcf).2.1]
    exact stepUnwindTail_clean e c curFrame rest a0 hhalt hcf hrest hbot

theorem stepNext_clean (c : Config) (a0 : Action) (hc : cleanCfg a0 c) :
    stepCleanOK a0 (stepNext c) := by
  obtain ⟨hhalt, hstack, hbot⟩ := hc
  unfold stepNext
  rcases hs : c.stack with _ | ⟨curFrame, rest⟩
  · exact Or.inr ⟨_, rfl⟩
  · rw [hs] at hstack hbot
    have hcf : cleanF curFrame := hstack curFrame (List.mem_cons_self _ _)
    have hrest : ∀ f ∈ rest, cleanF f := fun f hf => hstack f (List.mem_cons_of_mem _ hf)
    dsimp only
    rw [hhalt]
    split
    · rcases rest with _ | ⟨f2, rest2⟩
      · -- the bootstrap frame finished: return its zero slot
        obtain ⟨pre, b, heq, hcnt, hidx, hsl⟩ := hbot
        have hb : curFrame = b := by
          cases pre with
          | nil => simpa using heq
          | cons p ps =>
            exfalso
            simp only [List.cons_append, List.cons.injEq] at heq
            exact absurd heq.2 (by simp)
        subst hb
        have hzero : Frame.Zero { curFrame with Idx := curFrame.Idx + 1 } = a0 := by
          unfold Frame.Zero Frame.Slot
          rw [show ({ curFrame with Idx := curFrame.Idx + 1 } : Frame).slots =
            curFrame.slots from rfl, hsl]
          rfl
        have hda : a0.dirty = false := (hcf.2 a0 (by rw [hsl]; exact List.mem_singleton_self a0)).2.2.1
        rw [hzero, hda]
        exact Or.inl rfl
      · refine ⟨hhalt ▸ rfl, fun f hf => hrest f hf, ?_⟩
        exact botInv_tail hbot (by simp)
    · -- advance to the next slot of the same frame
      next hcond =>
      have hne : rest ≠ [] := by
        intro hnil
        subst hnil
        obtain ⟨pre, b, heq, hcnt, hidx, hsl⟩ := hbot
        have hb : curFrame = b := by
          cases pre with
          | nil => simpa using heq
          | cons p ps =>
            exfalso
            simp only [List.cons_append, List.cons.injEq] at heq
            exact absurd heq.2 (by simp)
        subst hb
        rw [hidx, hcnt] at hcond
        simp at hcond
      refine ⟨rfl, ?_, ?_⟩
      · intro f hf
        rcases List.mem_cons.mp hf with rfl | hf
        · exact ⟨hcf.1, hcf.2⟩
        · exact hrest f hf
      · obtain ⟨pre, b, heq, hcnt, hidx, hsl⟩ := hbot
        cases pre with
        | nil =>
          exfalso
          have : rest = [] := by simpa using (List.cons.injEq .. ▸ heq) |>.2
          exact hne this
        | cons p ps =>
          simp only [List.cons_append, List.cons.injEq] at heq
          exact ⟨{ curFrame with Idx := curFrame.Idx + 1 } :: ps, b, by rw [heq.2]; rfl, hcnt, hidx, hsl⟩

theorem step_clean (e : Engine) (fn : FacadeFn) (l : Label) (c : Config) (a0 : Action)
    (hfn : ∀ tid p h, fn.app tid p h = Context.Continue)
    (hc : cleanCfg a0 c) : stepCleanOK a0 (step e fn l c) := by
  cases l
  · exact stepEnter_clean e fn c a0 hfn hc
  · exact stepUnwind_clean e c a0 hc
  · exact stepNext_clean c a0 hc

/-- Run-level: an all-`Continue` run either runs out of fuel, panics on
a malformed descriptor, or returns the untouched root with
`changed = false` and no error. -/
theorem runE_clean (e : Engine) (fn : FacadeFn) (a0 : Action)
    (hfn : ∀ tid p h, fn.app tid p h = Context.Continue) :
    ∀ (fuel : Nat) (l : Label) (c : Config), cleanCfg a0 c →
      (runE e fn fuel l c).1 = .fuelOut ∨
      (runE e fn fuel l c).1 = .ok a0.td.TypeID a0.value false none ∨
      ∃ msg, (runE e fn fuel l c).1 = .panicked msg := by
  intro fuel
  induction fuel with
  | zero => intro l c _; exact Or.inl rfl
  | succ k ih =>
    intro l c hc
    have hstep := step_clean e fn l c a0 hfn hc
    rcases hs : step e fn l c with ⟨o, evs⟩ | ⟨l2, c2, evs⟩
    · rw [hs] at hstep
      simp only [runE, hs]
      rcases hstep with h | ⟨msg, h⟩
      · exact Or.inr (Or.inl h)
      · exact Or.inr (Or.inr ⟨msg, h⟩)
    · rw [hs] at hstep
      simp only [runE, hs]
      exact ih l2 c2 hstep

/-- C1: with a callback that always returns the default `Continue`
decision, a completed `Execute` returns the root `(type id, handle)`
it was given, `changed = false`, and no error.  The table hypothesis
says the root's descriptor carries its own id (what it means for the
table to be an id-to-descriptor map). -/
theorem C1_all_continue_noop :
    ∀ (e : Engine) (fn : FacadeFn) (t : TypeID) (x : Ptr) (assignableTo : TypeID)
      (m : Mem) (fuel : Nat) (rt : TypeID) (rp : Ptr) (ch : Bool) (er : Option Err),
      (∀ tid p h, fn.app tid p h = Context.Continue) →
      (e.typeData t).TypeID = t →
      (e.Execute fn t x assignableTo m fuel).1 = .ok rt rp ch er →
      rt = t ∧ rp = x ∧ ch = false ∧ er = none := by
  intro e fn t x assignableTo m fuel rt rp ch er hfn htd hok
  have hco : cleanCfg
      (resolveAction e (Context.ActionVisitReplace (e.typeData t) x (e.typeData assignableTo)))
      ⟨enterWith e [] none
        [Context.ActionVisitReplace (e.typeData t) x (e.typeData assignableTo)], m, false, none⟩ := by
    refine ⟨rfl, ?_, ?_⟩
    · intro f hf
      rcases List.mem_singleton.mp hf with rfl
      exact ⟨rfl, fun a ha => by
        rcases List.mem_singleton.mp ha with rfl
        exact resolveAction_clean e (cleanA_AVR _ _ _)⟩
    · exact ⟨[], _, rfl, rfl, rfl, rfl⟩
  have hrun := runE_clean e fn _ hfn fuel .enter _ hco
  have hok2 : (runE e fn fuel .enter
      ⟨enterWith e [] none
        [Context.ActionVisitReplace (e.typeData t) x (e.typeData assignableTo)], m, false, none⟩).1 =
      .ok rt rp ch er := hok
  rcases hrun with h | h | ⟨msg, h⟩
  · rw [hok2] at h; cases h
  · rw [hok2] at h
    have htd0 : (resolveAction e
        (Context.ActionVisitReplace (e.typeData t) x (e.typeData assignableTo))).td =
        e.typeData t := rfl
    rw [htd0] at h
    injection h with h1 h2 h3 h4
    have hv : (resolveAction e
        (Context.ActionVisitReplace (e.typeData t) x (e.typeData assignableTo))).value = x := rfl
    exact ⟨h1.trans htd, h2.trans hv, h3, h4⟩
  · rw [hok2] at h; cases h

/-- Witness for C1: the all-`Continue` run over the structural-sharing
demo graph returns the root unchanged. -/
theorem C1_all_continue_noop_witness :
    (3 : TypeID) = 3 ∧ (30 : Ptr) = 30 ∧ false = false ∧ (none : Option Err) = none :=
  C1_all_continue_noop eShare fnCont 3 30 3 memShare 100 3 30 false none
    (fun _ _ _ => rfl) rfl rfl

end Walkabout
